import Mathlib

/-!
Verification of the nrc-server-mappings CI validation scripts: a shallow
embedding of `scripts/logger.js` (manifest validation, asset checking,
status probing, orchestration) and of the PR-comment publisher module.

JSON documents are modelled by the inductive `Json`.  Platform effects —
file reads, `JSON.parse`, Ajv schema validation, the HTTPS status probe,
the GitHub comments API — enter as explicit parameters describing their
outcomes, and each embedded function returns its boolean result together
with the error/warning reports it would emit.  JavaScript semantics that
the scripts rely on (truthiness, `String()` coercion, property access on
non-objects throwing only for `null`/`undefined`, regex quirks) are
modelled explicitly below; `path.join`/`path.dirname`/`path.basename`
are modelled on plain `/`-separated POSIX paths without normalization,
which is the shape of every path the scripts build.
-/

/-- A parsed JSON document (the result of a successful `JSON.parse`). -/
inductive Json where
  | null
  | bool (b : Bool)
  | num (n : Int)
  | str (s : String)
  | arr (elems : List Json)
  | obj (fields : List (String × Json))

/-- Whether a JSON value is the literal `null`. -/
def Json.isNull : Json → Bool
  | .null => true
  | _ => false

/-- JavaScript property access `o[k]` on a parsed JSON value: `none` models
`undefined` (absent key, or access on a primitive, which does not throw). -/
def Json.getField : Json → String → Option Json
  | .obj fields, k => (fields.find? (fun f => f.1 == k)).map (fun f => f.2)
  | _, _ => none

/-- JavaScript truthiness of a JSON value. -/
def Json.truthy : Json → Bool
  | .null => false
  | .bool b => b
  | .num n => n != 0
  | .str s => s != ""
  | .arr _ => true
  | .obj _ => true

/-- JavaScript truthiness where `none` is `undefined` (falsy). -/
def truthyO : Option Json → Bool
  | none => false
  | some v => v.truthy

mutual
/-- JavaScript `String(v)` coercion of a JSON value. -/
def jsToString : Json → String
  | .null => "null"
  | .bool true => "true"
  | .bool false => "false"
  | .num n => toString n
  | .str s => s
  | .arr xs => ",".intercalate (jsToStringElems xs)
  | .obj _ => "[object Object]"

/-- Element coercion inside `Array.prototype.join`: `null` renders as `""`. -/
def jsToStringElems : List Json → List String
  | [] => []
  | .null :: rest => "" :: jsToStringElems rest
  | v :: rest => jsToString v :: jsToStringElems rest
end

/-- JavaScript `String(v)` where `none` is `undefined`. -/
def jsToStringU : Option Json → String
  | none => "undefined"
  | some v => jsToString v

/-- JavaScript `Array.prototype.join(sep)`. -/
def jsJoin (sep : String) (xs : List Json) : String :=
  sep.intercalate (jsToStringElems xs)

/-- Whether `needle` occurs as a contiguous run inside `hay`
(`String.prototype.includes` at the character-list level). -/
def hasInfixChars (needle : List Char) : List Char → Bool
  | [] => needle.isPrefixOf []
  | c :: rest => needle.isPrefixOf (c :: rest) || hasInfixChars needle rest

/-- JavaScript `s.includes(sub)`. -/
def jsIncludes (s sub : String) : Bool :=
  hasInfixChars sub.data s.data

/-- Split a character list at every occurrence of one separator character
(`String.prototype.split` with a one-character separator). -/
def splitOnChar (sep : Char) : List Char → List (List Char)
  | [] => [[]]
  | c :: rest =>
    if c == sep then [] :: splitOnChar sep rest
    else
      match splitOnChar sep rest with
      | [] => [[c]]
      | l :: ls => (c :: l) :: ls

/-- Rejoin character-list pieces with a separator character between them. -/
def charIntercalate (sep : Char) : List (List Char) → List Char
  | [] => []
  | [l] => l
  | l :: ls => l ++ sep :: charIntercalate sep ls

/-- `String.prototype.toLowerCase` on the ASCII texts the scripts handle. -/
def jsToLower (s : String) : String :=
  String.mk (s.data.map Char.toLower)

/-- POSIX `path.basename` on the already-normalized paths the scripts build. -/
def jsBasename (p : String) : String :=
  String.mk ((splitOnChar '/' p.data).getLastD [])

/-- POSIX `path.dirname` on the already-normalized paths the scripts build. -/
def jsDirname (p : String) : String :=
  let parts := splitOnChar '/' p.data
  if parts.length ≤ 1 then "." else String.mk (charIntercalate '/' parts.dropLast)

/-- `path.join(a, b)` on the already-normalized relative paths the scripts
build (no `..`/`.` segments occur, so joining is plain concatenation). -/
def jsPathJoin (a b : String) : String :=
  a ++ "/" ++ b

/-- One application of `name.replace(/[-_]?tag$/i, "")`: strip a trailing
`tag` (case-insensitive), together with one preceding `-` or `_` if present. -/
def stripNameTag (name tag : String) : String :=
  let low := name.data.map Char.toLower
  if ("-" ++ tag).data.isSuffixOf low || ("_" ++ tag).data.isSuffixOf low then
    String.mk (name.data.take (name.data.length - (tag.data.length + 1)))
  else if tag.data.isSuffixOf low then
    String.mk (name.data.take (name.data.length - tag.data.length))
  else name

/-- `prettyServerName` from `scripts/logger.js`: the folder name holding the
manifest, with trailing `smp` / `mc` decorations stripped. -/
def prettyServerName (manifestPath : String) : String :=
  stripNameTag (stripNameTag (jsBasename (jsDirname manifestPath)) "smp") "mc"

/-! ## Status prober (`checkServerStatus`, `scripts/logger.js` lines 358-464) -/

/-- What one run of the status prober did: its boolean result, the warnings
it reported, and the address of the outbound HTTPS request it issued
(`none` when no request was made). -/
structure ProbeLog where
  result : Bool
  warnings : List (String × List String)
  requested : Option String
deriving DecidableEq

/-- Outcome of the `manifest.edition && manifest.edition.toLowerCase() ===
'bedrock'` test: skip the probe, proceed, or throw (property access on a
`null` manifest, or `toLowerCase` on a truthy non-string — both caught by
the outer handler, which returns `true`). -/
inductive EditionGate where
  | skip
  | proceed
  | thrown
deriving DecidableEq

def editionGate (manifest : Json) : EditionGate :=
  if manifest.isNull then .thrown
  else
    match manifest.getField "edition" with
    | some ed =>
      if ed.truthy then
        match ed with
        | .str s => if jsToLower s == "bedrock" then .skip else .proceed
        | _ => .thrown
      else .proceed
    | none => .proceed

def maintenanceKeywords : List String :=
  ["maintenance", "wartung", "wartungen", "downtime", "offline",
   "updating", "restart", "restarting", "instandhaltung", "manutenzione"]

/-- `Array.isArray(manifest["server-address"]) ? it : [it]`: the list of
candidate addresses; a missing field still yields the one-element list
`[undefined]`, exactly as in the script. -/
def serverAddresses (manifest : Json) : List (Option Json) :=
  match manifest.getField "server-address" with
  | some (.arr xs) => xs.map some
  | other => [other]

/-- The motd-text extraction (lines 425-432 of `scripts/logger.js`).
`.error ()` marks a thrown `TypeError` (`join` called on a truthy
non-array `clean`/`raw`), which the inner handler catches. -/
def computeMotdText (motdO : Option Json) : Except Unit String :=
  match motdO with
  | some motd =>
    if motd.truthy then
      match motd.getField "clean" with
      | some c =>
        if c.truthy then
          match c with
          | .arr xs => .ok (jsToLower (jsJoin " " xs))
          | _ => .error ()
        else computeMotdRaw motd
      | none => computeMotdRaw motd
    else .ok ""
  | none => .ok ""
where
  computeMotdRaw (motd : Json) : Except Unit String :=
    match motd.getField "raw" with
    | some r =>
      if r.truthy then
        match r with
        | .arr xs => .ok (jsToLower (jsJoin " " xs))
        | _ => .error ()
      else .ok ""
    | none => .ok ""

/-- `response.motd.clean ? response.motd.clean.join(' | ') : 'N/A'` as used
inside the maintenance warning (only reached with a truthy motd whose
truthy `clean`, if any, is an array — a non-array would have thrown
earlier in `computeMotdText`). -/
def motdDisplay (motdO : Option Json) : String :=
  match motdO with
  | some motd =>
    match motd.getField "clean" with
    | some c =>
      if c.truthy then
        match c with
        | .arr xs => jsJoin " | " xs
        | _ => "N/A"
      else "N/A"
    | none => "N/A"
  | none => "N/A"

/-- The warning reported when the probe request or response handling fails. -/
def couldNotCheckWarning (serverName address emsg : String) : String × List String :=
  ("Could not check server status for " ++ serverName ++ " (" ++ address ++ ")",
   ["Error: " ++ emsg,
    "This might be a temporary network issue - validation will continue."])

/-- The warning reported when the probed server is not online. -/
def offlineWarning (serverName address : String) : String × List String :=
  ("Server " ++ serverName ++ " (" ++ address ++ ") appears to be OFFLINE",
   ["This is just a warning - validation will continue.",
    "The server might be temporarily down or undergoing maintenance."])

/-- `checkServerStatus` from `scripts/logger.js` (lines 358-464).
`readParse` is the outcome of `JSON.parse(fs.readFileSync(manifestPath))`
(`.error` for either a read or a parse failure, both caught by the outer
handler); `probe` is the outcome of the HTTPS request plus body parse
(`.error msg` for a network error, timeout, or malformed JSON body). -/
def checkServerStatus (manifestPath : String) (readParse : Except Unit Json)
    (probe : Except String Json) : ProbeLog :=
  match readParse with
  | .error _ => ⟨true, [], none⟩
  | .ok manifest =>
    let serverName := prettyServerName manifestPath
    match editionGate manifest with
    | .skip => ⟨true, [], none⟩
    | .thrown => ⟨true, [], none⟩
    | .proceed =>
      let addrs := serverAddresses manifest
      if addrs.length == 0 then ⟨true, [], none⟩
      else
        let address := jsToStringU (addrs.headD none)
        match probe with
        | .error emsg =>
          ⟨true, [couldNotCheckWarning serverName address emsg], some address⟩
        | .ok resp =>
          if resp.isNull then
            -- `response.online` on `null` throws; caught by the inner handler.
            ⟨true, [couldNotCheckWarning serverName address "TypeError"], some address⟩
          else if !(truthyO (resp.getField "online")) then
            ⟨true, [offlineWarning serverName address], some address⟩
          else
            match computeMotdText (resp.getField "motd") with
            | .error _ =>
              ⟨true, [couldNotCheckWarning serverName address "TypeError"], some address⟩
            | .ok motdT =>
              let foundKeywords := maintenanceKeywords.filter (fun k => jsIncludes motdT k)
              if foundKeywords.length > 0 then
                ⟨true,
                 [("Server " ++ serverName ++ " (" ++ address ++ ") may be in MAINTENANCE mode",
                   ["MOTD contains maintenance-related keywords: " ++ ", ".intercalate foundKeywords,
                    "The server might be undergoing maintenance or updates.",
                    "MOTD: " ++ motdDisplay (resp.getField "motd")])],
                 some address⟩
              else ⟨true, [], some address⟩

/-! ## Asset checker (`validateAssets`, `scripts/logger.js` lines 317-356) -/

/-- Outcome of checking one declared asset field (`assets.icon` /
`assets.background`): skipped (absent or falsy), found on disk, missing on
disk (reported, flips the result), or a thrown `TypeError`
(`path.join` on a truthy non-string), caught silently by the handler. -/
inductive AssetCheck where
  | skipped
  | found
  | missing (p : String)
  | thrown
deriving DecidableEq

def assetFieldCheck (manifestDir : String) (fsExists : String → Bool)
    (v : Option Json) : AssetCheck :=
  match v with
  | none => .skipped
  | some j =>
    if j.truthy then
      match j with
      | .str sp => if fsExists (jsPathJoin manifestDir sp) then .found else .missing sp
      | _ => .thrown
    else .skipped

/-- `validateAssets` from `scripts/logger.js` (lines 317-356).  `readParse`
is the outcome of `JSON.parse(fs.readFileSync(manifestPath))`; `fsExists`
is the filesystem (`fs.existsSync`).  Returns the boolean result together
with the error findings reported.  A read/parse failure, a `null`
manifest (property access throws), or a non-string truthy asset path
(`path.join` throws) all land in the silent `catch (_) { return false }`. -/
def validateAssets (manifestPath : String) (readParse : Except Unit Json)
    (fsExists : String → Bool) : Bool × List String :=
  match readParse with
  | .error _ => (false, [])
  | .ok .null => (false, [])
  | .ok manifest =>
    let manifestDir := jsDirname manifestPath
    let name := prettyServerName manifestPath
    if truthyO (manifest.getField "assets") = false then
      (false, ["No assets section found for " ++ name])
    else
      let assets := (manifest.getField "assets").getD .null
      match assetFieldCheck manifestDir fsExists (assets.getField "icon") with
      | .thrown => (false, [])
      | iconRes =>
        let iconFindings :=
          match iconRes with
          | .missing sp => ["Icon file not found for " ++ name ++ ": " ++ sp]
          | _ => []
        match assetFieldCheck manifestDir fsExists (assets.getField "background") with
        | .thrown => (false, iconFindings)
        | bgRes =>
          let bgFindings :=
            match bgRes with
            | .missing sp => ["Background file not found for " ++ name ++ ": " ++ sp]
            | _ => []
          let iconBad := match iconRes with | .missing _ => true | _ => false
          let bgBad := match bgRes with | .missing _ => true | _ => false
          (!iconBad && !bgBad, iconFindings ++ bgFindings)

/-! ## Error locator (`scripts/logger.js` lines 85-136) -/

/-- `text.split(/\r?\n/)` at the character level: a separator is either a
two-character `"\r\n"` or a lone `"\n"`; a `'\r'` not followed by `'\n'`
stays inside its line.  The result is always non-empty. -/
def splitLinesChars : List Char → List (List Char)
  | [] => [[]]
  | '\r' :: '\n' :: rest => [] :: splitLinesChars rest
  | '\n' :: rest => [] :: splitLinesChars rest
  | c :: rest =>
    match splitLinesChars rest with
    | [] => [[c]]
    | l :: ls => (c :: l) :: ls

/-- The scanning loop shared by `getLineAndColumnFromIndex` and
`getSnippetAroundIndex`: walk the split lines, each contributing its
length plus one separator character to the running count, until the
index falls inside the current line's span.  Returns the 1-based line,
the 1-based column (`index - count + 1`) and the line's text, or `none`
when the index lies beyond every span. -/
def glcLoop : Nat → List (List Char) → Nat → Nat → Option (Nat × Nat × List Char)
  | _, [], _, _ => none
  | index, l :: ls, i, count =>
    if index < count + l.length + 1 then some (i + 1, index - count + 1, l)
    else glcLoop index ls (i + 1) (count + l.length + 1)

/-- Result record of `getLineAndColumnFromIndex`. -/
structure LineCol where
  line : Nat
  column : Nat
  lineText : List Char
deriving DecidableEq

/-- `getLineAndColumnFromIndex` from `scripts/logger.js` (lines 107-122),
including the fall-through return for an index beyond the last line's
span (line = number of lines, column clamped to at least 1). -/
def getLineAndColumnFromIndex (text : List Char) (index : Nat) : LineCol :=
  let lines := splitLinesChars text
  match glcLoop index lines 0 0 with
  | some (l, c, t) => ⟨l, c, t⟩
  | none => ⟨lines.length, max 1 (lines.getLastD []).length, lines.getLastD []⟩

/-- `String(n).padStart(width)`. -/
def padLeftNum (n width : Nat) : String :=
  let s := toString n
  String.mk (List.replicate (width - s.length) ' ') ++ s

/-- `getSnippetAroundIndex` from `scripts/logger.js` (lines 85-105): clamp
the index to the text, locate its line, and render the surrounding window
(`contextLines` of context) with 4-padded line numbers.  Returns
`(line, snippet)` with a 1-based line. -/
def getSnippetAroundIndex (text : String) (index : Nat) (contextLines : Nat) : Nat × String :=
  let lines := splitLinesChars text.data
  let index := min index text.data.length
  let lineNum :=
    match glcLoop index lines 0 0 with
    | some (l, _, _) => l - 1
    | none => lines.length
  let startLine := lineNum - contextLines
  let endLine := min (lines.length - 1) (lineNum + contextLines)
  let sliced := (lines.drop startLine).take (endLine + 1 - startLine)
  let snippet := "\n".intercalate
    (sliced.mapIdx (fun i l => padLeftNum (startLine + i + 1) 4 ++ " | " ++ String.mk l))
  (lineNum + 1, snippet)

/-- The subset of JavaScript `\s` (whitespace class) that can occur in the
texts the scripts scan; exotic Unicode space separators are omitted. -/
def isJsWhitespaceChar (c : Char) : Bool :=
  c == ' ' || c == '\t' || c == '\n' || c == '\x0b' || c == '\x0c' || c == '\r' ||
  c == '\u00a0' || c == '\ufeff'

/-- Drop leading `\s*`. -/
def skipWs : List Char → List Char
  | [] => []
  | c :: cs => if isJsWhitespaceChar c then skipWs cs else c :: cs

/-- Case-insensitive literal prefix match, returning the rest of the text
after the pattern (models a case-insensitively-flagged literal regex). -/
def ciPrefixMatch : List Char → List Char → Option (List Char)
  | [], rest => some rest
  | _ :: _, [] => none
  | p :: ps, c :: cs => if p.toLower == c.toLower then ciPrefixMatch ps cs else none

/-- First index (0-based) at which the predicate holds of the remaining
suffix — the regex-engine scan for the leftmost match. -/
def findMatchIdx (p : List Char → Bool) : List Char → Nat → Option Nat
  | [], i => if p [] then some i else none
  | c :: rest, i => if p (c :: rest) then some i else findMatchIdx p rest (i + 1)

/-- Leftmost-match scan returning the first position's extracted value. -/
def findFirstSome {α : Type} (f : List Char → Option α) : List Char → Option α
  | [] => f []
  | c :: rest =>
    match f (c :: rest) with
    | some v => some v
    | none => findFirstSome f rest

/-- Attempt `/"prop"\s*:/i` (the property key with regex specials escaped,
hence a literal) at the head of `s` — used by `findPropertySnippet`. -/
def matchPropColonAt (prop : List Char) (s : List Char) : Bool :=
  match ciPrefixMatch ('"' :: prop ++ ['"']) s with
  | some rest =>
    match skipWs rest with
    | ':' :: _ => true
    | _ => false
  | none => false

/-- `findPropertySnippet` from `scripts/logger.js` (lines 124-136): take the
last segment of the instance path, search the raw text case-insensitively
for `"segment"` followed by optional whitespace and a colon, and render a
two-line-radius snippet at the match. -/
def findPropertySnippet (manifestText : String) (instancePath : String) : Option (Nat × String) :=
  if instancePath == "" then none
  else
    let parts := ((splitOnChar '/' instancePath.data).map String.mk).filter (fun s => s != "")
    match parts.getLast? with
    | none => none
    | some prop =>
      match findMatchIdx (matchPropColonAt prop.data) manifestText.data 0 with
      | none => none
      | some idx => some (getSnippetAroundIndex manifestText idx 2)

/-! ## Schema validator translation (`scripts/logger.js` lines 138-193, 284-312) -/

/-- The Ajv error fields the script consults.  `params` fields are `none`
when absent; empty strings model present-but-falsy values. -/
structure AjvParams where
  allowedValues : Option (List Json)
  missingProperty : Option String
  expectedType : Option String
  additionalProperty : Option String

structure AjvError where
  keyword : String
  instancePath : String
  message : String
  params : AjvParams

/-- Minimal `JSON.stringify` (used only on `error.params.allowedValues`);
string escaping is limited to quotes and backslashes, which covers every
value a manifest schema enum can carry here. -/
def jsEscapeChars (s : String) : String :=
  String.mk (s.data.foldr (fun c acc => if c == '"' || c == '\\' then '\\' :: c :: acc else c :: acc) [])

mutual
def jsonStringify : Json → String
  | .null => "null"
  | .bool true => "true"
  | .bool false => "false"
  | .num n => toString n
  | .str s => "\"" ++ jsEscapeChars s ++ "\""
  | .arr xs => "[" ++ ",".intercalate (jsonStringifyList xs) ++ "]"
  | .obj fs => "\x7b" ++ ",".intercalate (jsonStringifyFields fs) ++ "\x7d"

def jsonStringifyList : List Json → List String
  | [] => []
  | v :: rest => jsonStringify v :: jsonStringifyList rest

def jsonStringifyFields : List (String × Json) → List String
  | [] => []
  | (k, v) :: rest => ("\"" ++ jsEscapeChars k ++ "\":" ++ jsonStringify v) :: jsonStringifyFields rest
end

/-- `suggestFixForAjvError` from `scripts/logger.js` (lines 138-193):
keyword-specific remediation lines, followed by the common tip.  The
`error.params && error.params.x` truthiness guards are modelled by the
`Option` plus an emptiness test on string-valued params. -/
def suggestFixForAjvError (error : AjvError) : List String :=
  let suggestions : List String :=
    if error.keyword == "enum" then
      match error.params.allowedValues with
      | some vs =>
        ["Allowed values: " ++ jsonStringify (.arr vs),
         "Fix: choose one of the allowed values (check spelling and casing)."]
      | none => []
    else if error.keyword == "required" then
      match error.params.missingProperty with
      | some p =>
        if p != "" then
          ["Missing property: " ++ p,
           "Fix: add the property to the manifest with an appropriate value."]
        else []
      | none => []
    else if error.keyword == "type" then
      match error.params.expectedType with
      | some t =>
        if t != "" then
          ["Expected type: " ++ t,
           "Fix: ensure the value is the correct JSON type (number, string, boolean, object, array)."]
        else []
      | none => []
    else if error.keyword == "additionalProperties" then
      match error.params.additionalProperty with
      | some p =>
        if p != "" then
          ["Unexpected property: " ++ p,
           "Fix: remove or rename the property, or update the schema if it should be allowed."]
        else []
      | none => []
    else if error.keyword == "minLength" || error.keyword == "maxLength" then
      ["Fix: adjust the string length to match schema constraints."]
    else
      ["Fix: review the schema rule and adjust the manifest accordingly."]
  suggestions ++ ["Tip: run `npm run validate-manifest` after edits to re-check."]

/-! ## Manifest validation (`validateManifest`, `scripts/logger.js` lines 195-315) -/

/-- A character accepted by the path filter `/^[a-z0-9\/._-]+$/`. -/
def pathCharAllowed (c : Char) : Bool :=
  c.isLower || c.isDigit || c == '/' || c == '.' || c == '_' || c == '-'

/-- `rel.match(/^[a-z0-9\/._-]+$/)` as a boolean: with no `m` flag, `^`
and `$` anchor at the very start and very end of the input, so the regex
matches exactly the non-empty strings made only of class characters. -/
def pathAllowed (rel : String) : Bool :=
  let cs := rel.data
  !cs.isEmpty && cs.all pathCharAllowed

/-- Attempt `/position\s*(\d+)/i` at the head of the message and parse the
captured digits (the explicit offset some JSON parsers embed). -/
def matchPositionAt (s : List Char) : Option Nat :=
  match ciPrefixMatch "position".data s with
  | some rest =>
    let ds := (skipWs rest).takeWhile Char.isDigit
    if ds.isEmpty then none
    else some (ds.foldl (fun a c => a * 10 + (c.toNat - 48)) 0)
  | none => none

/-- Attempt `/,\s*[\]\}]/` at the head of the text: a comma, optional
whitespace, then a closing bracket or brace. -/
def matchTrailingCommaAt : List Char → Bool
  | ',' :: rest =>
    (match skipWs rest with
     | c :: _ => c == ']' || c == '\x7d'
     | [] => false)
  | _ => false

/-- A character the regex `.` refuses to match (JavaScript line terminators). -/
def isLineTerminatorChar (c : Char) : Bool :=
  c == '\n' || c == '\r' || c == '\u2028' || c == '\u2029'

/-- Attempt `/Unexpected token ['"]?(.+?)['"]?(?: in JSON)?/i` at the head of
the message and return the captured token.  Because every part after the
lazy `(.+?)` is optional, the capture is always a single character: the
first character after `Unexpected token ` (one leading quote, if present,
is consumed greedily by `['"]?` — unless a line terminator follows it, in
which case backtracking makes the quote itself the capture). -/
def tokenCaptureAt (s : List Char) : Option Char :=
  match ciPrefixMatch "Unexpected token ".data s with
  | some rest =>
    match rest with
    | c :: c2 :: _ =>
      if c == '\'' || c == '"' then
        (if !isLineTerminatorChar c2 then some c2 else some c)
      else if !isLineTerminatorChar c then some c
      else none
    | [c] =>
      if c == '\'' || c == '"' then some c
      else if !isLineTerminatorChar c then some c
      else none
    | [] => none
  | none => none

/-- The position heuristic of the `JSON.parse` catch block (lines 221-239):
an explicit `position N` in the parser message, else the first
trailing-comma-before-closing-bracket in the raw text, else the first
occurrence in the raw text of the token extracted from the message. -/
def syntaxErrorPos (manifestText msg : String) : Option Nat :=
  match findFirstSome matchPositionAt msg.data with
  | some p => some p
  | none =>
    match findMatchIdx matchTrailingCommaAt manifestText.data 0 with
    | some i => some i
    | none =>
      match findFirstSome tokenCaptureAt msg.data with
      | some tok => manifestText.data.findIdx? (fun c => c == tok)
      | none => none

/-- The bordered snippet with caret built for a located syntax error
(lines 243-261). -/
def syntaxSnippet (manifestText : String) (line column : Nat) : List String :=
  let lines := splitLinesChars manifestText.data
  let start := line - 3
  let endL := min (lines.length - 1) (line + 1)
  let rows := (List.range (endL + 1 - start)).foldr
    (fun k acc =>
      let i := start + k
      let prefixStr := padLeftNum (i + 1) 3 ++ " | "
      let row := prefixStr ++ String.mk (lines.getD i [])
      (if i = line - 1 then
        [row, String.mk (List.replicate (prefixStr.length + (column - 1)) ' ') ++ "^"]
      else [row]) ++ acc)
    []
  rows ++ ["", "Suggestion: check for trailing commas, missing quotes, or incorrect brackets."]

/-- One `logger`/`reportError` call made by `validateManifest`, tagged by
which branch produced it; each constructor carries the header line passed
to the logger (and, where applicable, the detail lines). -/
inductive VMFinding where
  | badPath (header : String)
  | readFail (header : String)
  | syntaxLocated (header : String) (lines : List String)
  | syntaxUnlocated (header : String) (lines : List String)
  | schemaHeader (header : String)
  | schemaError (pathString : String) (message : String)
      (snippet : Option (Nat × String)) (suggestions : List String)
deriving DecidableEq

/-- The header line of the logger call behind a finding. -/
def VMFinding.header : VMFinding → String
  | .badPath h => h
  | .readFail h => h
  | .syntaxLocated h _ => h
  | .syntaxUnlocated h _ => h
  | .schemaHeader h => h
  | .schemaError pathString _ _ _ => "  " ++ pathString

/-- The detail lines of one schema-violation report (lines 291-308): the
`path: message` line, the optional snippet block, and the indented
suggestion block. -/
def renderSchemaFinding (pathString message : String)
    (snippet : Option (Nat × String)) (suggestions : List String) : List String :=
  [pathString ++ ": " ++ message]
  ++ (match snippet with
      | some (ln, sn) => ["", "code (around line " ++ toString ln ++ "):"] ++ (splitOnChar '\n' sn.data).map String.mk
      | none => [])
  ++ (if suggestions.isEmpty then []
      else ["", "suggestions:"] ++ suggestions.map (fun s => "  - " ++ s))

/-- Translation of one Ajv error into its report (lines 286-308). -/
def schemaFindingOf (manifestText : String) (error : AjvError) : VMFinding :=
  let pathString := if error.instancePath != "" then error.instancePath else "/"
  .schemaError pathString error.message
    (findPropertySnippet manifestText error.instancePath)
    (suggestFixForAjvError error)

/-- The located syntax-error report built at a resolved position `p`
(header with `line:column`, snippet with caret). -/
def syntaxLocatedFinding (manifestPath text msg : String) (p : Nat) : VMFinding :=
  let relInner := "servers/" ++ jsBasename (jsDirname manifestPath) ++ "/" ++ jsBasename manifestPath
  let lc := getLineAndColumnFromIndex text.data p
  .syntaxLocated
    (relInner ++ ": SyntaxError: " ++ msg ++ " (" ++ toString lc.line ++ ":" ++ toString lc.column ++ ")")
    (syntaxSnippet text lc.line lc.column)

/-- Whether a finding is a schema-violation report whose suggestion block
names `x` as a missing required property. -/
def namesMissingProperty (x : String) : VMFinding → Bool
  | .schemaError _ _ _ suggestions => decide (("Missing property: " ++ x) ∈ suggestions)
  | _ => false

/-- Environment of one `validateManifest` call: the outcome of the file
read, of `JSON.parse` on its text, and the error list Ajv produces for
the parsed manifest against the chosen schema (`[]` exactly when the
manifest validates; Ajv with `allErrors` reports every violation). -/
structure ManifestEnv where
  readResult : Except String String
  parseResult : Except String Json
  ajvErrors : List AjvError

/-- `validateManifest` from `scripts/logger.js` (lines 195-315).
`manifestPath` is the path argument; `rel` is the platform-computed
`path.relative(process.cwd(), manifestPath)`.  The local
schema-override choice (lines 278-281) only affects which schema Ajv
compiled and is absorbed into `env.ajvErrors`. -/
def validateManifest (manifestPath rel : String) (env : ManifestEnv) : Bool × List VMFinding :=
  if !pathAllowed rel then
    (false, [.badPath (rel ++ ": Non [a-z0-9/._-] character in path")])
  else
    match env.readResult with
    | .error emsg => (false, [.readFail (rel ++ ": Failed to read: " ++ emsg)])
    | .ok manifestText =>
      match env.parseResult with
      | .error msg =>
        (match syntaxErrorPos manifestText msg with
         | some p => (false, [syntaxLocatedFinding manifestPath manifestText msg p])
         | none =>
           (false, [.syntaxUnlocated
             ("JSON syntax error in "
               ++ ("servers/" ++ jsBasename (jsDirname manifestPath) ++ "/" ++ jsBasename manifestPath)
               ++ ": " ++ msg)
             ["The JSON is malformed. Common causes: trailing commas, missing quotes, or stray characters."]]))
      | .ok _ =>
        if env.ajvErrors.isEmpty then (true, [])
        else
          (false, .schemaHeader ("Validation failed for " ++ rel ++ ":") ::
            env.ajvErrors.map (fun e => schemaFindingOf manifestText e))

/-! ## Orchestrator (`main`, `scripts/logger.js` lines 488-556) -/

/-- One discovered manifest entry together with the platform outcomes its
checks will see: the file read, the `JSON.parse` of the text, the Ajv
error list, and the status-probe outcome. -/
structure EntryInput where
  manifestPath : String
  rel : String
  readResult : Except String String
  parseResult : Except String Json
  ajvErrors : List AjvError
  probe : Except String Json

/-- The read-plus-parse outcome seen by `validateAssets` and
`checkServerStatus`, which re-read the same file inside their own
`try`: any read or parse failure lands in their catch. -/
def entryReadParse (e : EntryInput) : Except Unit Json :=
  match e.readResult, e.parseResult with
  | .ok _, .ok j => .ok j
  | _, _ => .error ()

/-- The folder name of an entry (`path.basename(path.dirname(p))`). -/
def entryFolder (e : EntryInput) : String :=
  jsBasename (jsDirname e.manifestPath)

/-- `filterFolders && filterFolders.length > 0`: whether the filtering
block of `main` runs. -/
def filterActive (filterFolders : Option (List String)) : Bool :=
  match filterFolders with
  | some fs => !fs.isEmpty
  | none => false

/-- The `--folders=` filtering of discovered manifests (lines 505-509):
applied only when the parsed filter list is non-empty. -/
def filteredManifests (filterFolders : Option (List String)) (entries : List EntryInput) :
    List EntryInput :=
  match filterFolders with
  | some fs =>
    if !fs.isEmpty then entries.filter (fun e => fs.contains (entryFolder e)) else entries
  | none => entries

/-- The folders reported as missing their manifest (lines 524-527): the
filter applies whenever `filterFolders` is non-null — even when empty. -/
def relevantMissingOf (filterFolders : Option (List String)) (missing : List String) :
    List String :=
  match filterFolders with
  | some fs => missing.filter (fun d => fs.contains d)
  | none => missing

/-- Whether both per-entry checks of the loop body pass for one entry. -/
def entryPassed (fsExists : String → Bool) (e : EntryInput) : Bool :=
  (validateManifest e.manifestPath e.rel ⟨e.readResult, e.parseResult, e.ajvErrors⟩).1
  && (validateAssets e.manifestPath (entryReadParse e) fsExists).1

/-- The error/warning report lines one loop iteration emits: the manifest
findings' headers, the asset findings, and the probe warnings' headers
(the probe's boolean result is discarded by `main`, exactly as in the
script). -/
def entryFindings (fsExists : String → Bool) (e : EntryInput) : List String :=
  (validateManifest e.manifestPath e.rel ⟨e.readResult, e.parseResult, e.ajvErrors⟩).2.map VMFinding.header
  ++ (validateAssets e.manifestPath (entryReadParse e) fsExists).2
  ++ ((checkServerStatus e.manifestPath (entryReadParse e) e.probe).warnings.map (fun wn => wn.1))

/-- `main` from `scripts/logger.js` (lines 488-556) as a pure function of
the parsed `--folders=` filter (`none` models absence of the flag — or a
flag whose list collapses to nothing after trimming, which leaves
`filterFolders` null; `some fs` a parsed non-null list), the discovered
entries and missing folders, and the filesystem.  Returns the process
exit code together with every error finding emitted (the info logs are
not findings). -/
def mainRun (filterFolders : Option (List String)) (entries : List EntryInput)
    (missing : List String) (fsExists : String → Bool) : Nat × List String :=
  let manifestFiles := filteredManifests filterFolders entries
  if filterActive filterFolders && manifestFiles.isEmpty then (0, [])
  else if manifestFiles.isEmpty && missing.isEmpty then (1, ["No manifest files found."])
  else
    let relevantMissing := relevantMissingOf filterFolders missing
    let allValid := relevantMissing.isEmpty && manifestFiles.all (entryPassed fsExists)
    ((if allValid then 0 else 1),
     relevantMissing.map (fun d => "Missing manifest.json for server: " ++ d)
     ++ manifestFiles.foldr (fun e acc => entryFindings fsExists e ++ acc) [])

/-! ## Comment publisher (the workflow module) -/

/-- Split on JavaScript line terminators (the positions where `$` can match
and `.` cannot); `/\[tag\].*$/gm` then finds at most one match per
segment, from the first occurrence of the tag to the segment's end. -/
def splitSegments : List Char → List (List Char)
  | [] => [[]]
  | c :: rest =>
    if isLineTerminatorChar c then
      [] :: splitSegments rest
    else
      match splitSegments rest with
      | [] => [[c]]
      | l :: ls => (c :: l) :: ls

/-- `text.match(/\[tag\].*$/gm) || []`: every line's suffix from its first
occurrence of the tag. -/
def taggedMatches (tag : String) (text : String) : List String :=
  (splitSegments text.data).filterMap (fun seg =>
    (findMatchIdx (fun s => tag.data.isPrefixOf s) seg 0).map
      (fun i => String.mk (seg.drop i)))

/-- `m.replace(/\[tag\]\s*/, '')` on a match `m`, which by construction
begins with the tag: drop it and any whitespace after it. -/
def stripTagWs (tag m : String) : String :=
  String.mk (skipWs (m.data.drop tag.length))

/-- `process.env.CHECKED_FOLDERS || 'N/A'` (`none` or `""` degrade). -/
def renderCheckedFolders (checkedFoldersEnv : Option String) : String :=
  match checkedFoldersEnv with
  | some s => if s == "" then "N/A" else s
  | none => "N/A"

/-- The Errors block (module lines 35-42): present exactly when the error
list is non-empty, one bullet per extracted line. -/
def errorsSection (allErrors : List String) : String :=
  if !allErrors.isEmpty then
    "### ❌ Errors\n\n"
    ++ String.join (allErrors.map (fun err => "- 🔴 " ++ stripTagWs "[error]" err ++ "\n"))
    ++ "\n"
  else ""

/-- The Warnings block (module lines 44-51): present exactly when the
warning list is non-empty, one bullet per extracted line. -/
def warningsSection (warnings : List String) : String :=
  if !warnings.isEmpty then
    "### ⚠️ Warnings\n\n"
    ++ String.join (warnings.map (fun wr => "- 🟡 " ++ stripTagWs "[warn]" wr ++ "\n"))
    ++ "\n"
  else ""

/-- The Markdown document the publisher builds (module lines 22-55) from
the two log files' contents and the `CHECKED_FOLDERS` environment
variable. -/
def renderComment (validationOutput imagesOutput : String)
    (checkedFoldersEnv : Option String) : String :=
  let warnings := taggedMatches "[warn]" validationOutput
  let errors := taggedMatches "[error]" validationOutput
  let imageErrors := taggedMatches "[error]" imagesOutput
  let allErrors := errors ++ imageErrors
  let body :=
    if allErrors.isEmpty && warnings.isEmpty then
      "✅ **All checks passed!** No issues found.\n"
    else
      errorsSection allErrors ++ warningsSection warnings
  "## 🔍 Validation Results\n\n" ++ body ++ "---\n"
    ++ "**Checked folders:** `" ++ renderCheckedFolders checkedFoldersEnv ++ "`"

/-- A PR comment as the publisher sees it through the GitHub API. -/
structure PRComment where
  id : Nat
  userType : String
  body : String
deriving DecidableEq

/-- The marker substring identifying the publisher's own comment. -/
def publishMarker : String := "🔍 Validation Results"

/-- The predicate identifying the publisher's own comment:
`c.user.type === 'Bot' && c.body.includes(marker)`. -/
def isMarkerBot (c : PRComment) : Bool :=
  c.userType == "Bot" && jsIncludes c.body publishMarker

/-- `comments.find(c => c.user.type === 'Bot' && c.body.includes(marker))`. -/
def findBotComment (comments : List PRComment) : Option PRComment :=
  comments.find? isMarkerBot

/-- The comment-thread update the publisher performs (module lines 57-84):
overwrite the found comment's body in place, or append a fresh
bot-authored comment with the next id. -/
def publishComment (comments : List PRComment) (body : String) (newId : Nat) : List PRComment :=
  match findBotComment comments with
  | some bot =>
    comments.map (fun c => if c.id == bot.id then { c with body := body } else c)
  | none => comments ++ [{ id := newId, userType := "Bot", body := body }]

/-- One full publish run: read the two log artifacts (missing files degrade
to placeholder strings), render the document, and create-or-update the
marker comment. -/
def publishRun (validationRead imagesRead : Except Unit String)
    (checkedFoldersEnv : Option String) (comments : List PRComment) (newId : Nat) :
    List PRComment :=
  let validationOutput :=
    match validationRead with
    | .ok s => s
    | .error _ => "No validation output"
  let imagesOutput :=
    match imagesRead with
    | .ok s => s
    | .error _ => "No image validation output"
  publishComment comments (renderComment validationOutput imagesOutput checkedFoldersEnv) newId

/-! ## Analysis helpers for the error locator -/

/-- The inverse of line splitting: rejoin with single `'\n'` separators. -/
def joinLines : List (List Char) → List Char
  | [] => []
  | [l] => l
  | l :: ls => l ++ '\n' :: joinLines ls

/-- No `"\r\n"` two-character separator occurs in the text (every line
break is then a single `'\n'`, so split-line spans line up with text
offsets). -/
def noCRLF : List Char → Bool
  | [] => true
  | [_] => true
  | a :: b :: rest => !(a == '\r' && b == '\n') && noCRLF (b :: rest)

/-- Total span of a line list: each line counts its length plus one
separator slot. -/
def lineSpanSum : List (List Char) → Nat
  | [] => 0
  | l :: ls => l.length + 1 + lineSpanSum ls

/-- Offset `d` falls on an actual character of one of the lines (not on a
separator slot and not beyond the text). -/
def withinLineSpan : List (List Char) → Nat → Bool
  | [], _ => false
  | l :: ls, d =>
    decide (d < l.length) || (decide (l.length + 1 ≤ d) && withinLineSpan ls (d - (l.length + 1)))

/-- Count-free restatement of `glcLoop` used to reason about it: locate
offset `d` among the line spans starting from line index `i`. -/
def locFrom : Nat → List (List Char) → Nat → Option (Nat × Nat × List Char)
  | _, [], _ => none
  | d, l :: ls, i =>
    if d < l.length + 1 then some (i + 1, d + 1, l)
    else locFrom (d - (l.length + 1)) ls (i + 1)

/-! Theorems settling the claims, with their witnesses and counterexamples. -/

/-- C3: every code path of the status prober returns `true` — read/parse
failures, thrown property accesses, network errors, malformed responses
and offline servers are all swallowed (reported at most as warnings), so
the prober can never flip the validation result to failing. -/
theorem C3_prober_never_fails (p : String) (rp : Except Unit Json)
    (probe : Except String Json) : (checkServerStatus p rp probe).result = true := by
  unfold checkServerStatus
  cases rp with
  | error e => rfl
  | ok m =>
    dsimp only
    repeat' (first | rfl | split | dsimp only)

/-- C7 counterexample: the claim says an entry that declares no server
address is skipped with no outbound request; in fact a manifest without
any `server-address` field yields the address list `[undefined]`, so the
prober issues a request to the literal address `undefined`. -/
theorem C7_counterexample :
    (Json.obj []).getField "server-address" = none
    ∧ (checkServerStatus "servers/abc/manifest.json" (.ok (Json.obj [])) (.error "net")).requested
      = some "undefined" :=
  ⟨rfl, by decide⟩

/-- C7 amended: the prober skips (returns `true` and issues no request
for) entries whose edition string lowercases to `bedrock` and entries
whose `server-address` is an empty array; an entry lacking the
`server-address` field entirely is still probed — at the literal address
string `undefined` — though treated as passing. -/
theorem C7_prober_skips_amended (p : String) (m : Json) (probe : Except String Json) :
    (∀ s, m.getField "edition" = some (.str s) → jsToLower s = "bedrock" →
      checkServerStatus p (.ok m) probe = ⟨true, [], none⟩)
    ∧ (m.getField "server-address" = some (.arr []) →
      checkServerStatus p (.ok m) probe = ⟨true, [], none⟩)
    ∧ (m.getField "server-address" = none → editionGate m = .proceed →
      (checkServerStatus p (.ok m) probe).result = true ∧
      (checkServerStatus p (.ok m) probe).requested = some "undefined") := by
  refine ⟨?_, ?_, ?_⟩
  · intro s hed hb
    have hnn : m.isNull = false := by
      cases m <;> simp_all [Json.getField, Json.isNull]
    have hne : s ≠ "" := by
      intro h; rw [h] at hb; exact absurd hb (by decide)
    have hgate : editionGate m = .skip := by
      unfold editionGate
      rw [hnn, hed]
      simp [Json.truthy, hne, hb]
    simp only [checkServerStatus, hgate]
  · intro hsa
    have haddr : serverAddresses m = [] := by
      unfold serverAddresses; rw [hsa]; rfl
    cases hg : editionGate m <;> simp [checkServerStatus, hg, haddr]
  · intro hsa hg
    have haddr : serverAddresses m = [none] := by
      unfold serverAddresses; rw [hsa]
    simp only [checkServerStatus, hg, haddr]
    have hlen : (([none] : List (Option Json)).length == 0) = false := rfl
    rw [hlen]
    refine ⟨?_, ?_⟩ <;>
      (dsimp only; repeat' (first | rfl | split | dsimp only))
    all_goals simp_all

/-- C7 witness: a bedrock-edition manifest and an empty-address-array
manifest are both skipped outright. -/
theorem C7_witness :
    checkServerStatus "servers/abc/manifest.json"
      (.ok (Json.obj [("edition", Json.str "Bedrock")])) (.error "net") = ⟨true, [], none⟩
    ∧ checkServerStatus "servers/abc/manifest.json"
      (.ok (Json.obj [("server-address", Json.arr [])])) (.error "net") = ⟨true, [], none⟩ :=
  ⟨(C7_prober_skips_amended _ _ _).1 "Bedrock" rfl (by decide),
   (C7_prober_skips_amended _ _ _).2.1 rfl⟩

/-- C6: the asset checker returns false when `assets.icon` names a file
absent from the filesystem (resolved against the manifest's directory),
returns `(true, [])` when every declared asset field is absent/falsy or
points at an existing file, and returns false with the
`No assets section found` finding when the assets section is missing
from a (non-null) parsed manifest. -/
theorem C6_asset_checker (p : String) (rp : Except Unit Json) (fs : String → Bool) :
    (∀ m a sp, rp = .ok m → m.getField "assets" = some a → a.truthy = true →
      a.getField "icon" = some (.str sp) → sp ≠ "" →
      fs (jsPathJoin (jsDirname p) sp) = false →
      (validateAssets p rp fs).1 = false)
    ∧ (∀ m a, rp = .ok m → m.getField "assets" = some a → a.truthy = true →
      (assetFieldCheck (jsDirname p) fs (a.getField "icon") = .found ∨
        assetFieldCheck (jsDirname p) fs (a.getField "icon") = .skipped) →
      (assetFieldCheck (jsDirname p) fs (a.getField "background") = .found ∨
        assetFieldCheck (jsDirname p) fs (a.getField "background") = .skipped) →
      validateAssets p rp fs = (true, []))
    ∧ (∀ m, rp = .ok m → m.isNull = false → truthyO (m.getField "assets") = false →
      validateAssets p rp fs = (false, ["No assets section found for " ++ prettyServerName p])) := by
  refine ⟨?_, ?_, ?_⟩
  · rintro m a sp rfl hA hT hI hsp hfs
    cases m with
    | obj fields =>
      have hic : assetFieldCheck (jsDirname p) fs (a.getField "icon") = .missing sp := by
        rw [hI]; simp [assetFieldCheck, Json.truthy, hsp, hfs]
      simp only [validateAssets, hA, truthyO, hT, Option.getD_some]
      simp only [Bool.true_eq_false, if_false, hic]
      cases hbg : assetFieldCheck (jsDirname p) fs (a.getField "background") <;> simp [hbg]
    | _ => simp [Json.getField] at hA
  · rintro m a rfl hA hT hic hbg
    cases m with
    | obj fields =>
      simp only [validateAssets, hA, truthyO, hT, Option.getD_some]
      simp only [Bool.true_eq_false, if_false]
      rcases hic with hic | hic <;> rcases hbg with hbg | hbg <;> simp [hic, hbg]
    | _ => simp [Json.getField] at hA
  · rintro m rfl hN hAf
    cases m with
    | null => simp [Json.isNull] at hN
    | _ => simp [validateAssets, hAf]

/-- C6 witness: the three scenarios at concrete manifests — assets
section missing, declared icon present on disk, declared icon absent. -/
theorem C6_witness :
    validateAssets "servers/foo/manifest.json" (.ok (Json.obj [("name", Json.str "x")]))
      (fun _ => false) = (false, ["No assets section found for foo"])
    ∧ validateAssets "servers/foo/manifest.json"
      (.ok (Json.obj [("assets", Json.obj [("icon", Json.str "icon.png")])]))
      (fun q => q == "servers/foo/icon.png") = (true, [])
    ∧ (validateAssets "servers/foo/manifest.json"
      (.ok (Json.obj [("assets", Json.obj [("icon", Json.str "icon.png")])]))
      (fun _ => false)).1 = false :=
  ⟨((C6_asset_checker "servers/foo/manifest.json" _ _).2.2
      (Json.obj [("name", Json.str "x")]) rfl rfl rfl).trans (by decide),
   (C6_asset_checker "servers/foo/manifest.json" _ _).2.1
      (Json.obj [("assets", Json.obj [("icon", Json.str "icon.png")])])
      (Json.obj [("icon", Json.str "icon.png")]) rfl rfl rfl
      (Or.inl (by decide)) (Or.inr (by decide)),
   (C6_asset_checker "servers/foo/manifest.json" _ _).1
      (Json.obj [("assets", Json.obj [("icon", Json.str "icon.png")])])
      (Json.obj [("icon", Json.str "icon.png")]) "icon.png" rfl rfl rfl rfl
      (by decide) (by decide)⟩

/-- C10: any manifest whose relative path (to the working directory)
contains a character outside `[a-z0-9/._-]` is rejected immediately —
`validateManifest` returns false with only the path finding, for every
read/parse/Ajv outcome, so the file is neither read nor parsed; paths
containing an uppercase letter are one instance. -/
theorem C10_path_filter (manifestPath rel : String) (env : ManifestEnv)
    (hbad : ∃ c ∈ rel.data, pathCharAllowed c = false) :
    validateManifest manifestPath rel env
      = (false, [.badPath (rel ++ ": Non [a-z0-9/._-] character in path")]) := by
  have hall : rel.data.all pathCharAllowed = false := by
    obtain ⟨c, hcm, hcf⟩ := hbad
    cases hv : rel.data.all pathCharAllowed with
    | false => rfl
    | true =>
      have hc := List.all_eq_true.mp hv c hcm
      rw [hcf] at hc
      exact absurd hc (by decide)
  have hpa : pathAllowed rel = false := by
    unfold pathAllowed
    dsimp only
    rw [hall, Bool.and_false]
  simp [validateManifest, hpa]

/-- C10 witness: a path with an uppercase letter is rejected without the
read being consulted (the read outcome is an error that never surfaces). -/
theorem C10_witness :
    (∃ c ∈ "servers/A/manifest.json".data, pathCharAllowed c = false)
    ∧ validateManifest "x" "servers/A/manifest.json" ⟨.error "e", .error "x", []⟩
      = (false, [.badPath ("servers/A/manifest.json" ++ ": Non [a-z0-9/._-] character in path")]) :=
  ⟨by decide,
   C10_path_filter "x" "servers/A/manifest.json" _ (by decide)⟩

/-- C4: on a `JSON.parse` failure, when the parser message carries no
explicit `position N`, the catch block falls back first to the earliest
trailing-comma-before-closing-bracket in the raw text, then to the first
occurrence of the token extracted from the message; when neither yields
a position the error is reported as a message-only finding with no
snippet; and `validateManifest` returns false in every one of these
cases. -/
theorem C4_parse_error_fallbacks (manifestPath rel text msg : String) (ajv : List AjvError)
    (hrel : pathAllowed rel = true) :
    (∀ rr, (validateManifest manifestPath rel ⟨rr, .error msg, ajv⟩).1 = false)
    ∧ (findFirstSome matchPositionAt msg.data = none →
       ∀ i, findMatchIdx matchTrailingCommaAt text.data 0 = some i →
       validateManifest manifestPath rel ⟨.ok text, .error msg, ajv⟩
         = (false, [syntaxLocatedFinding manifestPath text msg i]))
    ∧ (findFirstSome matchPositionAt msg.data = none →
       findMatchIdx matchTrailingCommaAt text.data 0 = none →
       ∀ tok j, findFirstSome tokenCaptureAt msg.data = some tok →
       text.data.findIdx? (fun c => c == tok) = some j →
       validateManifest manifestPath rel ⟨.ok text, .error msg, ajv⟩
         = (false, [syntaxLocatedFinding manifestPath text msg j]))
    ∧ (findFirstSome matchPositionAt msg.data = none →
       findMatchIdx matchTrailingCommaAt text.data 0 = none →
       (findFirstSome tokenCaptureAt msg.data = none ∨
         ∃ tok, findFirstSome tokenCaptureAt msg.data = some tok ∧
           text.data.findIdx? (fun c => c == tok) = none) →
       validateManifest manifestPath rel ⟨.ok text, .error msg, ajv⟩
         = (false, [.syntaxUnlocated
             ("JSON syntax error in "
               ++ ("servers/" ++ jsBasename (jsDirname manifestPath) ++ "/" ++ jsBasename manifestPath)
               ++ ": " ++ msg)
             ["The JSON is malformed. Common causes: trailing commas, missing quotes, or stray characters."]])) := by
  have hnrel : (!pathAllowed rel) = false := by rw [hrel]; rfl
  refine ⟨?_, ?_, ?_, ?_⟩
  · intro rr
    unfold validateManifest
    rw [hnrel]
    dsimp only
    cases rr with
    | error e => rfl
    | ok t =>
      cases hsp : syntaxErrorPos t msg <;> simp [hsp]
  · intro hp i hc
    have hpos : syntaxErrorPos text msg = some i := by
      simp only [syntaxErrorPos, hp, hc]
    unfold validateManifest
    rw [hnrel]
    simp [hpos]
  · intro hp hc tok j ht hj
    have hpos : syntaxErrorPos text msg = some j := by
      simp only [syntaxErrorPos, hp, hc, ht, hj]
    unfold validateManifest
    rw [hnrel]
    simp [hpos]
  · intro hp hc hrest
    have hpos : syntaxErrorPos text msg = none := by
      rcases hrest with h | ⟨tok, ht, hj⟩
      · simp only [syntaxErrorPos, hp, hc, h]
      · simp only [syntaxErrorPos, hp, hc, ht, hj]
    unfold validateManifest
    rw [hnrel]
    simp [hpos]

/-- C4 witness: a message without position information over a text with a
trailing comma localizes the error at the comma's offset. -/
theorem C4_witness :
    pathAllowed "servers/a/manifest.json" = true
    ∧ findFirstSome matchPositionAt "Unexpected end of JSON input".data = none
    ∧ findMatchIdx matchTrailingCommaAt "\x7b\"a\": 1, \x7d".data 0 = some 7
    ∧ validateManifest "servers/a/manifest.json" "servers/a/manifest.json"
        ⟨.ok "\x7b\"a\": 1, \x7d", .error "Unexpected end of JSON input", []⟩
      = (false, [syntaxLocatedFinding "servers/a/manifest.json" "\x7b\"a\": 1, \x7d"
          "Unexpected end of JSON input" 7]) :=
  ⟨by decide, by decide, by decide,
   (C4_parse_error_fallbacks "servers/a/manifest.json" "servers/a/manifest.json"
      "\x7b\"a\": 1, \x7d" "Unexpected end of JSON input" []
      (by decide)).2.1 (by decide) 7 (by decide)⟩

/-- C1 counterexample: with no filter and nothing discovered (no
manifests, no missing-manifest folders) every per-entry check passes
vacuously, yet the orchestrator exits 1 (fatal `No manifest files
found.`), contradicting the claimed if-and-only-if. -/
theorem C1_counterexample :
    ([] : List EntryInput).all (entryPassed (fun _ => false)) = true
    ∧ relevantMissingOf none [] = []
    ∧ (mainRun none [] [] (fun _ => false)).1 = 1 :=
  ⟨rfl, rfl, rfl⟩

/-- C1 amended: the exit status is 0 exactly when (a) a non-empty folder
filter matches no manifest-bearing folder (even if it matches folders
whose manifest is missing), or (b) discovery found at least one manifest
or manifest-less folder, no relevant folder is missing its manifest, and
every filtered manifest passes both the manifest and the asset check; it
is 1 otherwise — in particular when nothing at all is discovered.  On
the early-exit path (a) the process emits no findings. -/
theorem C1_exit_status_amended (ff : Option (List String)) (entries : List EntryInput)
    (missing : List String) (fs : String → Bool) :
    ((mainRun ff entries missing fs).1 = 0 ↔
      (filterActive ff = true ∧ filteredManifests ff entries = [])
      ∨ (¬(filterActive ff = true ∧ filteredManifests ff entries = [])
         ∧ (filteredManifests ff entries ≠ [] ∨ missing ≠ [])
         ∧ relevantMissingOf ff missing = []
         ∧ ∀ e ∈ filteredManifests ff entries, entryPassed fs e = true))
    ∧ (filterActive ff = true → filteredManifests ff entries = [] →
       mainRun ff entries missing fs = (0, [])) := by
  constructor
  · unfold mainRun
    dsimp only
    by_cases h1 : (filterActive ff && (filteredManifests ff entries).isEmpty) = true
    · rw [if_pos h1]
      simp only [Bool.and_eq_true, List.isEmpty_iff] at h1
      exact iff_of_true rfl (Or.inl h1)
    · rw [if_neg h1]
      have h1' : ¬(filterActive ff = true ∧ filteredManifests ff entries = []) := by
        rintro ⟨ha, hb⟩
        exact h1 (by simp [ha, hb])
      by_cases h2 : ((filteredManifests ff entries).isEmpty && missing.isEmpty) = true
      · rw [if_pos h2]
        simp only [Bool.and_eq_true, List.isEmpty_iff] at h2
        refine iff_of_false (by decide) ?_
        rintro (hco | ⟨_, hne, _, _⟩)
        · exact h1' hco
        · rcases hne with hne | hne
          · exact hne h2.1
          · exact hne h2.2
      · rw [if_neg h2]
        dsimp only
        by_cases hav : ((relevantMissingOf ff missing).isEmpty
            && (filteredManifests ff entries).all (entryPassed fs)) = true
        · rw [if_pos hav]
          simp only [Bool.and_eq_true, List.isEmpty_iff, List.all_eq_true] at hav
          refine iff_of_true rfl (Or.inr ⟨h1', ?_, hav.1, hav.2⟩)
          by_cases hmf : filteredManifests ff entries = []
          · right
            intro hm
            exact h2 (by simp [hmf, hm])
          · left; exact hmf
        · rw [if_neg hav]
          refine iff_of_false (by decide) ?_
          rintro (hco | ⟨_, _, hrm, hall⟩)
          · exact h1' hco
          · refine hav ?_
            simp only [Bool.and_eq_true, List.isEmpty_iff, List.all_eq_true]
            exact ⟨hrm, hall⟩
  · intro ha hb
    unfold mainRun
    rw [if_pos (by simp [ha, hb])]

/-- C1 witness: a filter matching only a manifest-less folder exits 0
with no findings. -/
theorem C1_witness :
    mainRun (some ["x"]) [] ["x"] (fun _ => false) = (0, []) :=
  (C1_exit_status_amended (some ["x"]) [] ["x"] (fun _ => false)).2 (by decide) rfl

/-- C8: the publisher renders the success banner exactly when both the
extracted error and warning sets are empty; otherwise the document is
the header, then the Errors section (omitted when empty), then the
Warnings section (omitted when empty), then the footer — errors strictly
before warnings; and the single log line `[error] Foo is broken` yields
a document containing an Errors section with the bullet
`- 🔴 Foo is broken` and no Warnings section. -/
theorem C8_comment_rendering (v i : String) (cf : Option String) :
    (taggedMatches "[error]" v ++ taggedMatches "[error]" i = [] →
     taggedMatches "[warn]" v = [] →
     renderComment v i cf
       = "## 🔍 Validation Results\n\n" ++ "✅ **All checks passed!** No issues found.\n"
         ++ "---\n" ++ "**Checked folders:** `" ++ renderCheckedFolders cf ++ "`")
    ∧ (taggedMatches "[error]" v ++ taggedMatches "[error]" i ≠ []
        ∨ taggedMatches "[warn]" v ≠ [] →
       renderComment v i cf
         = "## 🔍 Validation Results\n\n"
           ++ errorsSection (taggedMatches "[error]" v ++ taggedMatches "[error]" i)
           ++ warningsSection (taggedMatches "[warn]" v)
           ++ "---\n" ++ "**Checked folders:** `" ++ renderCheckedFolders cf ++ "`")
    ∧ (jsIncludes (renderComment "[error] Foo is broken" "" (some "servers")) "### ❌ Errors" = true
       ∧ jsIncludes (renderComment "[error] Foo is broken" "" (some "servers")) "- 🔴 Foo is broken\n" = true
       ∧ jsIncludes (renderComment "[error] Foo is broken" "" (some "servers")) "### ⚠️ Warnings" = false) := by
  refine ⟨?_, ?_, by decide, by decide, by decide⟩
  · intro he hw
    unfold renderComment
    dsimp only
    rw [he, hw]
    rfl
  · intro hne
    unfold renderComment
    dsimp only
    have hcond : ((taggedMatches "[error]" v ++ taggedMatches "[error]" i).isEmpty
        && (taggedMatches "[warn]" v).isEmpty) = false := by
      rcases hne with h | h
      · simp [List.isEmpty_iff, h]
      · simp [List.isEmpty_iff, h]
    rw [hcond]
    rfl

/-- C8 witness: empty logs render exactly the success document. -/
theorem C8_witness :
    taggedMatches "[error]" "" ++ taggedMatches "[error]" "" = []
    ∧ taggedMatches "[warn]" "" = []
    ∧ renderComment "" "" none
      = "## 🔍 Validation Results\n\n" ++ "✅ **All checks passed!** No issues found.\n"
        ++ "---\n" ++ "**Checked folders:** `" ++ renderCheckedFolders none ++ "`" :=
  ⟨by decide, by decide, (C8_comment_rendering "" "" none).1 (by decide) (by decide)⟩

/-- Helper: updating the body of the unique marker comment (found by
`find?`) keeps exactly one marker comment, provided ids are unique and
the new body still carries the marker. -/
theorem countP_update_marker (body : String) (hm : jsIncludes body publishMarker = true) :
    ∀ (l : List PRComment) (bot : PRComment),
    l.find? isMarkerBot = some bot →
    l.Pairwise (fun a b => a.id ≠ b.id) →
    l.countP isMarkerBot = 1 →
    (l.map (fun c => if c.id == bot.id then { c with body := body } else c)).countP isMarkerBot
      = 1 := by
  intro l
  induction l with
  | nil => intro bot hf _ _; simp at hf
  | cons c rest ih =>
    intro bot hf hpw hcount
    rw [List.pairwise_cons] at hpw
    cases hc : isMarkerBot c with
    | true =>
      rw [List.find?_cons_of_pos _ hc] at hf
      injection hf with hf
      subst hf
      rw [List.countP_cons, hc] at hcount
      simp only [if_true] at hcount
      have hrest0 : rest.countP isMarkerBot = 0 := by omega
      have hmapid : rest.map (fun x => if x.id == c.id then { x with body := body } else x)
          = rest := by
        have hfix : ∀ x ∈ rest,
            (if x.id == c.id then { x with body := body } else x) = id x := by
          intro x hx
          have hne : x.id ≠ c.id := fun h => (hpw.1 x hx) h.symm
          simp [hne]
        rw [List.map_congr_left hfix, List.map_id]
      have hnew : isMarkerBot { c with body := body } = true := by
        unfold isMarkerBot at hc ⊢
        simp only [Bool.and_eq_true] at hc ⊢
        exact ⟨hc.1, hm⟩
      rw [List.map_cons, hmapid]
      simp only [beq_self_eq_true, if_true]
      rw [List.countP_cons, hnew, hrest0]
      simp
    | false =>
      rw [List.find?_cons_of_neg _ (by simp [hc])] at hf
      have hmem : bot ∈ rest := List.mem_of_find?_eq_some hf
      have hne : c.id ≠ bot.id := hpw.1 bot hmem
      rw [List.countP_cons, hc] at hcount
      simp at hcount
      rw [List.map_cons]
      have hcc : (if c.id == bot.id then { c with body := body } else c) = c := by
        simp [hne]
      rw [hcc, List.countP_cons, hc]
      simp only [Nat.add_zero, if_neg (by decide : ¬false = true)]
      exact ih bot hf hpw.2 (by omega)

/-- C9 counterexample: the claim says exactly one marker comment exists
after any publish run; but over a thread that already holds two
bot-authored marker comments, publishing updates only the first and
leaves two. -/
theorem C9_counterexample :
    (([⟨1, "Bot", "## 🔍 Validation Results\n\nold"⟩,
       ⟨2, "Bot", "## 🔍 Validation Results\n\nold2"⟩] : List PRComment).countP isMarkerBot = 2)
    ∧ (publishComment
        [⟨1, "Bot", "## 🔍 Validation Results\n\nold"⟩,
         ⟨2, "Bot", "## 🔍 Validation Results\n\nold2"⟩]
        (renderComment "" "" none) 9).countP isMarkerBot = 2 :=
  ⟨by decide, by decide⟩

/-- C9 amended: provided comment ids are unique and at most one
bot-authored marker comment exists beforehand, exactly one exists after
a publish run (created when absent, updated in place when present); in
particular, publishing twice against a thread with no marker comment
creates a single bot comment on the first run and the second run
overwrites that same comment's body — same id, no duplicate. -/
theorem C9_publish_idempotent_amended :
    (∀ (comments : List PRComment) (body : String) (newId : Nat),
      jsIncludes body publishMarker = true →
      comments.Pairwise (fun a b => a.id ≠ b.id) →
      comments.countP isMarkerBot ≤ 1 →
      (publishComment comments body newId).countP isMarkerBot = 1)
    ∧ (∀ (comments : List PRComment) (body1 body2 : String) (id1 id2 : Nat),
      jsIncludes body1 publishMarker = true →
      comments.countP isMarkerBot = 0 →
      (∀ c ∈ comments, c.id ≠ id1) →
      publishComment comments body1 id1 = comments ++ [⟨id1, "Bot", body1⟩]
      ∧ publishComment (publishComment comments body1 id1) body2 id2
        = comments ++ [⟨id1, "Bot", body2⟩]) := by
  constructor
  · intro comments body newId hm hpw hle
    rcases Nat.le_one_iff_eq_zero_or_eq_one.mp hle with h0 | h1
    · have hfind : comments.find? isMarkerBot = none := by
        rw [List.find?_eq_none]
        intro x hx
        have hnx := List.countP_eq_zero.mp h0 x hx
        simpa using hnx
      unfold publishComment findBotComment
      rw [hfind, List.countP_append, h0]
      simp [List.countP_cons, isMarkerBot, hm]
    · have hex : ∃ x ∈ comments, isMarkerBot x = true := by
        by_contra hno
        push_neg at hno
        have hz : comments.countP isMarkerBot = 0 := by
          rw [List.countP_eq_zero]
          intro a ha
          simpa using hno a ha
        omega
      have hfs : (comments.find? isMarkerBot).isSome := by
        rw [List.find?_isSome]
        simpa using hex
      obtain ⟨bot, hbot⟩ := Option.isSome_iff_exists.mp hfs
      unfold publishComment findBotComment
      rw [hbot]
      exact countP_update_marker body hm comments bot hbot hpw h1
  · intro comments body1 body2 id1 id2 hm1 h0 hfresh
    have hfind : comments.find? isMarkerBot = none := by
      rw [List.find?_eq_none]
      intro x hx
      have hnx := List.countP_eq_zero.mp h0 x hx
      simpa using hnx
    have e1 : publishComment comments body1 id1 = comments ++ [⟨id1, "Bot", body1⟩] := by
      unfold publishComment findBotComment
      rw [hfind]
    refine ⟨e1, ?_⟩
    rw [e1]
    have hnew : isMarkerBot ⟨id1, "Bot", body1⟩ = true := by
      simp [isMarkerBot, hm1]
    have hfind2 : (comments ++ [(⟨id1, "Bot", body1⟩ : PRComment)]).find? isMarkerBot
        = some ⟨id1, "Bot", body1⟩ := by
      rw [List.find?_append, hfind]
      simp [hnew]
    unfold publishComment findBotComment
    rw [hfind2]
    dsimp only
    rw [List.map_append]
    congr 1
    · have hfix : ∀ x ∈ comments,
          (if x.id == (⟨id1, "Bot", body1⟩ : PRComment).id then { x with body := body2 } else x)
            = id x := by
        intro x hx
        simp [hfresh x hx]
      rw [List.map_congr_left hfix, List.map_id]
    · simp

/-- C9 witness: two consecutive publish runs over a thread with one
non-bot comment converge to a single bot comment with the same id. -/
theorem C9_witness :
    publishComment [⟨5, "User", "hello"⟩] (renderComment "" "" none) 7
      = [⟨5, "User", "hello"⟩, ⟨7, "Bot", renderComment "" "" none⟩]
    ∧ publishComment (publishComment [⟨5, "User", "hello"⟩] (renderComment "" "" none) 7)
        (renderComment "[error] x" "" none) 9
      = [⟨5, "User", "hello"⟩, ⟨7, "Bot", renderComment "[error] x" "" none⟩] :=
  ⟨(C9_publish_idempotent_amended.2 [⟨5, "User", "hello"⟩]
      (renderComment "" "" none) (renderComment "[error] x" "" none) 7 9
      (by decide) (by decide) (by decide)).1,
   (C9_publish_idempotent_amended.2 [⟨5, "User", "hello"⟩]
      (renderComment "" "" none) (renderComment "[error] x" "" none) 7 9
      (by decide) (by decide) (by decide)).2⟩
/-- Helper: strings whose (nonempty) leading characters differ stay
different after appending arbitrary tails. -/
theorem append_head_ne (a b x y : String) (c d : Char)
    (hca : a.data.head? = some c) (hdb : b.data.head? = some d) (hcd : c ≠ d) :
    a ++ x ≠ b ++ y := by
  intro he
  have hd : a.data ++ x.data = b.data ++ y.data := by
    have h2 := congrArg String.data he
    simpa [String.data_append] using h2
  have hna : a.data ≠ [] := by intro h; rw [h] at hca; simp at hca
  have hnb : b.data ≠ [] := by intro h; rw [h] at hdb; simp at hdb
  have h1 := congrArg List.head? hd
  rw [List.head?_append_of_ne_nil _ hna, List.head?_append_of_ne_nil _ hnb, hca, hdb] at h1
  exact hcd (by injection h1)

/-- Helper: a string with a given nonempty literal prefix differs from a
literal whose first character differs. -/
theorem append_ne_lit (a x b : String) (c d : Char)
    (hca : a.data.head? = some c) (hdb : b.data.head? = some d) (hcd : c ≠ d) :
    a ++ x ≠ b := by
  intro he
  have hd : a.data ++ x.data = b.data := by
    have h2 := congrArg String.data he
    simpa [String.data_append] using h2
  have hna : a.data ≠ [] := by intro h; rw [h] at hca; simp at hca
  have h1 := congrArg List.head? hd
  rw [List.head?_append_of_ne_nil _ hna, hca, hdb] at h1
  exact hcd (by injection h1)

/-- Helper: appending to a fixed string is injective. -/
theorem append_left_cancel_str {a x y : String} (h : a ++ x = a ++ y) : x = y := by
  have hd : a.data ++ x.data = a.data ++ y.data := by
    have h2 := congrArg String.data h
    simpa [String.data_append] using h2
  have := List.append_cancel_left hd
  cases x with
  | mk dx =>
    cases y with
    | mk dy => exact congrArg String.mk (by simpa using this)

theorem namesMissingProperty_suggest (x : String) (hx : x ≠ "") (text : String) (e : AjvError) :
    namesMissingProperty x (schemaFindingOf text e)
      = (e.keyword == "required" && e.params.missingProperty == some x) := by
  have hM : ("Missing property: " : String).data.head? = some 'M' := by decide
  have hTip : ("Missing property: " ++ x)
      ≠ "Tip: run `npm run validate-manifest` after edits to re-check." :=
    append_ne_lit _ _ _ 'M' 'T' hM (by decide) (by decide)
  have hFixAdd : ("Missing property: " ++ x)
      ≠ "Fix: add the property to the manifest with an appropriate value." :=
    append_ne_lit _ _ _ 'M' 'F' hM (by decide) (by decide)
  have hFixChoose : ("Missing property: " ++ x)
      ≠ "Fix: choose one of the allowed values (check spelling and casing)." :=
    append_ne_lit _ _ _ 'M' 'F' hM (by decide) (by decide)
  have hFixType : ("Missing property: " ++ x)
      ≠ "Fix: ensure the value is the correct JSON type (number, string, boolean, object, array)." :=
    append_ne_lit _ _ _ 'M' 'F' hM (by decide) (by decide)
  have hFixRemove : ("Missing property: " ++ x)
      ≠ "Fix: remove or rename the property, or update the schema if it should be allowed." :=
    append_ne_lit _ _ _ 'M' 'F' hM (by decide) (by decide)
  have hFixLen : ("Missing property: " ++ x)
      ≠ "Fix: adjust the string length to match schema constraints." :=
    append_ne_lit _ _ _ 'M' 'F' hM (by decide) (by decide)
  have hFixReview : ("Missing property: " ++ x)
      ≠ "Fix: review the schema rule and adjust the manifest accordingly." :=
    append_ne_lit _ _ _ 'M' 'F' hM (by decide) (by decide)
  have hAllowed : ∀ y : String, ("Missing property: " ++ x) ≠ "Allowed values: " ++ y :=
    fun y => append_head_ne _ _ _ _ 'M' 'A' hM (by decide) (by decide)
  have hExp : ∀ y : String, ("Missing property: " ++ x) ≠ "Expected type: " ++ y :=
    fun y => append_head_ne _ _ _ _ 'M' 'E' hM (by decide) (by decide)
  have hUnexp : ∀ y : String, ("Missing property: " ++ x) ≠ "Unexpected property: " ++ y :=
    fun y => append_head_ne _ _ _ _ 'M' 'U' hM (by decide) (by decide)
  simp only [schemaFindingOf, namesMissingProperty]
  unfold suggestFixForAjvError
  by_cases h1 : e.keyword = "enum"
  · have hrk : (e.keyword == "required") = false := by simp [h1]
    rw [hrk, Bool.false_and]
    simp only [h1, beq_self_eq_true, if_true]
    cases hav : e.params.allowedValues with
    | some vs =>
      apply decide_eq_false
      intro hmem
      simp only [List.cons_append, List.nil_append, List.mem_cons, List.not_mem_nil,
        or_false] at hmem
      rcases hmem with h | h | h
      · exact hAllowed _ h
      · exact hFixChoose h
      · exact hTip h
    | none =>
      apply decide_eq_false
      intro hmem
      simp only [List.nil_append, List.mem_cons, List.not_mem_nil, or_false] at hmem
      exact hTip hmem
  · have h1f : (e.keyword == "enum") = false := by simp [h1]
    simp only [h1f, Bool.false_eq_true, if_false]
    by_cases h2 : e.keyword = "required"
    · have hrk : (e.keyword == "required") = true := by simp [h2]
      rw [hrk, Bool.true_and]
      simp only [if_true]
      cases hmp : e.params.missingProperty with
      | none =>
        have hfalse : ((none : Option String) == some x) = false := rfl
        rw [hfalse]
        apply decide_eq_false
        intro hmem
        simp only [List.nil_append, List.mem_cons, List.not_mem_nil, or_false] at hmem
        exact hTip hmem
      | some p =>
        dsimp only
        by_cases hp : p = ""
        · have hpne : (p != "") = false := by simp [hp]
          rw [hpne]
          have hfalse : (some p == some x) = false := by
            rw [beq_eq_false_iff_ne]
            intro hc
            injection hc with hc
            exact hx (hp ▸ hc.symm)
          rw [hfalse]
          simp only [Bool.false_eq_true, if_false]
          apply decide_eq_false
          intro hmem
          simp only [List.nil_append, List.mem_cons, List.not_mem_nil, or_false] at hmem
          exact hTip hmem
        · have hpne : (p != "") = true := by simp [hp]
          rw [hpne]
          simp only [if_true]
          by_cases hxp : x = p
          · have htrue : (some p == some x) = true := by
              rw [beq_iff_eq, hxp]
            rw [htrue]
            apply decide_eq_true
            subst hxp
            simp [List.mem_cons]
          · have hfalse : (some p == some x) = false := by
              rw [beq_eq_false_iff_ne]
              intro hc
              injection hc with hc
              exact hxp hc.symm
            rw [hfalse]
            apply decide_eq_false
            intro hmem
            simp only [List.cons_append, List.nil_append, List.mem_cons, List.not_mem_nil,
              or_false] at hmem
            rcases hmem with h | h | h
            · exact hxp (append_left_cancel_str h)
            · exact hFixAdd h
            · exact hTip h
    · have h2f : (e.keyword == "required") = false := by simp [h2]
      rw [h2f, Bool.false_and]
      simp only [h2f, Bool.false_eq_true, if_false]
      by_cases h3 : e.keyword = "type"
      · have h3t : (e.keyword == "type") = true := by simp [h3]
        simp only [h3t, if_true]
        cases hty : e.params.expectedType with
        | none =>
          apply decide_eq_false
          intro hmem
          simp only [List.nil_append, List.mem_cons, List.not_mem_nil, or_false] at hmem
          exact hTip hmem
        | some t =>
          dsimp only
          by_cases ht0 : t = ""
          · have h0 : (t != "") = false := by simp [ht0]
            rw [h0]
            simp only [Bool.false_eq_true, if_false]
            apply decide_eq_false
            intro hmem
            simp only [List.nil_append, List.mem_cons, List.not_mem_nil, or_false] at hmem
            exact hTip hmem
          · have h0 : (t != "") = true := by simp [ht0]
            rw [h0]
            simp only [if_true]
            apply decide_eq_false
            intro hmem
            simp only [List.cons_append, List.nil_append, List.mem_cons, List.not_mem_nil,
              or_false] at hmem
            rcases hmem with h | h | h
            · exact hExp _ h
            · exact hFixType h
            · exact hTip h
      · have h3f : (e.keyword == "type") = false := by simp [h3]
        simp only [h3f, Bool.false_eq_true, if_false]
        by_cases h4 : e.keyword = "additionalProperties"
        · have h4t : (e.keyword == "additionalProperties") = true := by simp [h4]
          simp only [h4t, if_true]
          cases hap : e.params.additionalProperty with
          | none =>
            apply decide_eq_false
            intro hmem
            simp only [List.nil_append, List.mem_cons, List.not_mem_nil, or_false] at hmem
            exact hTip hmem
          | some q =>
            dsimp only
            by_cases hq0 : q = ""
            · have h0 : (q != "") = false := by simp [hq0]
              rw [h0]
              simp only [Bool.false_eq_true, if_false]
              apply decide_eq_false
              intro hmem
              simp only [List.nil_append, List.mem_cons, List.not_mem_nil, or_false] at hmem
              exact hTip hmem
            · have h0 : (q != "") = true := by simp [hq0]
              rw [h0]
              simp only [if_true]
              apply decide_eq_false
              intro hmem
              simp only [List.cons_append, List.nil_append, List.mem_cons, List.not_mem_nil,
                or_false] at hmem
              rcases hmem with h | h | h
              · exact hUnexp _ h
              · exact hFixRemove h
              · exact hTip h
        · have h4f : (e.keyword == "additionalProperties") = false := by simp [h4]
          simp only [h4f, Bool.false_eq_true, if_false]
          by_cases h5 : (e.keyword == "minLength" || e.keyword == "maxLength") = true
          · simp only [h5, if_true]
            apply decide_eq_false
            intro hmem
            simp only [List.cons_append, List.nil_append, List.mem_cons, List.not_mem_nil,
              or_false] at hmem
            rcases hmem with h | h
            · exact hFixLen h
            · exact hTip h
          · have h5f : (e.keyword == "minLength" || e.keyword == "maxLength") = false := by
              cases hv : (e.keyword == "minLength" || e.keyword == "maxLength") with
              | false => rfl
              | true => exact absurd hv h5
            simp only [h5f, Bool.false_eq_true, if_false]
            apply decide_eq_false
            intro hmem
            simp only [List.cons_append, List.nil_append, List.mem_cons, List.not_mem_nil,
              or_false] at hmem
            rcases hmem with h | h
            · exact hFixReview h
            · exact hTip h

/-- Helper: `countP` respects pointwise-equal predicates. -/
theorem countP_congr_list {α : Type} (p q : α → Bool) :
    ∀ (l : List α), (∀ a ∈ l, p a = q a) → l.countP p = l.countP q := by
  intro l
  induction l with
  | nil => intro _; rfl
  | cons a rest ih =>
    intro h
    rw [List.countP_cons, List.countP_cons, h a (List.mem_cons_self a rest),
      ih (fun b hb => h b (List.mem_cons_of_mem a hb))]

/-- C5: when Ajv reports exactly one `required` violation naming the
missing field `x` (its contract with `allErrors`), the schema findings
contain exactly one finding whose suggestions name `x` as the missing
property (with the add-the-property guidance baked into the
translation); and every `enum` violation's finding lists the allowed
values verbatim (`JSON.stringify` of the schema's enum) together with
the choose-one-of-the-allowed-values guidance. -/
theorem C5_schema_findings (manifestPath rel text : String) (m : Json) (errors : List AjvError)
    (x : String) (hx : x ≠ "") (hrel : pathAllowed rel = true) (hne : errors ≠ []) :
    (errors.countP (fun e => e.keyword == "required" && e.params.missingProperty == some x) = 1 →
      ((validateManifest manifestPath rel ⟨.ok text, .ok m, errors⟩).2).countP
        (namesMissingProperty x) = 1)
    ∧ (∀ e ∈ errors, ∀ vs, e.keyword = "enum" → e.params.allowedValues = some vs →
      suggestFixForAjvError e
        = ["Allowed values: " ++ jsonStringify (.arr vs),
           "Fix: choose one of the allowed values (check spelling and casing).",
           "Tip: run `npm run validate-manifest` after edits to re-check."]
      ∧ schemaFindingOf text e ∈ (validateManifest manifestPath rel ⟨.ok text, .ok m, errors⟩).2) := by
  have hnrel : (!pathAllowed rel) = false := by rw [hrel]; rfl
  have hie : errors.isEmpty = false := by
    cases errors with
    | nil => exact absurd rfl hne
    | cons a l => rfl
  have hfind : (validateManifest manifestPath rel ⟨.ok text, .ok m, errors⟩).2
      = .schemaHeader ("Validation failed for " ++ rel ++ ":")
        :: errors.map (fun e => schemaFindingOf text e) := by
    unfold validateManifest
    rw [hnrel]
    dsimp only
    rw [hie]
    rfl
  constructor
  · intro hone
    rw [hfind, List.countP_cons]
    have hhead : namesMissingProperty x
        (.schemaHeader ("Validation failed for " ++ rel ++ ":")) = false := rfl
    rw [hhead, List.countP_map]
    have hcongr : ∀ e ∈ errors,
        (namesMissingProperty x ∘ fun e => schemaFindingOf text e) e
          = (fun e => e.keyword == "required" && e.params.missingProperty == some x) e := by
      intro e _
      exact namesMissingProperty_suggest x hx text e
    rw [countP_congr_list _ _ errors hcongr, hone]
    simp
  · intro e he vs hk hv
    constructor
    · unfold suggestFixForAjvError
      simp [hk, hv]
    · rw [hfind]
      exact List.mem_cons_of_mem _ (List.mem_map_of_mem _ he)

/-- C5 witness: one required-`edition` Ajv error yields exactly one
finding naming `edition`. -/
theorem C5_witness :
    (([⟨"required", "", "must have required property 'edition'",
        ⟨none, some "edition", none, none⟩⟩] : List AjvError).countP
      (fun e => e.keyword == "required" && e.params.missingProperty == some "edition") = 1)
    ∧ ((validateManifest "servers/a/manifest.json" "servers/a/manifest.json"
        ⟨.ok "\x7b\x7d", .ok (Json.obj []),
         [⟨"required", "", "must have required property 'edition'",
           ⟨none, some "edition", none, none⟩⟩]⟩).2).countP
        (namesMissingProperty "edition") = 1 :=
  ⟨by decide,
   (C5_schema_findings "servers/a/manifest.json" "servers/a/manifest.json" "\x7b\x7d"
      (Json.obj [])
      [⟨"required", "", "must have required property 'edition'",
        ⟨none, some "edition", none, none⟩⟩]
      "edition" (by decide) (by decide) (List.cons_ne_nil _ _)).1 (by decide)⟩

/-- Helper: the split is never the empty list of lines. -/
theorem splitLinesChars_ne_nil (s : List Char) : splitLinesChars s ≠ [] := by
  induction s using splitLinesChars.induct with
  | case1 => simp [splitLinesChars.eq_1]
  | case2 rest ih => simp [splitLinesChars.eq_2]
  | case3 rest ih => simp [splitLinesChars.eq_3]
  | case4 c rest h1 h2 hsp ih => exact absurd hsp ih
  | case5 c rest h1 h2 l ls hsp ih =>
    rw [splitLinesChars.eq_4 c rest h1 h2, hsp]
    simp

/-- Helper: `noCRLF` passes to the tail. -/
theorem noCRLF_tail (c : Char) (rest : List Char) (h : noCRLF (c :: rest) = true) :
    noCRLF rest = true := by
  cases rest with
  | nil => rfl
  | cons b r =>
    unfold noCRLF at h
    simp only [Bool.and_eq_true] at h
    exact h.2

/-- Helper: on CRLF-free text, rejoining the split lines with `'\n'`
recovers the text. -/
theorem joinLines_splitLinesChars : ∀ (s : List Char), noCRLF s = true →
    joinLines (splitLinesChars s) = s := by
  intro s
  induction s using splitLinesChars.induct with
  | case1 => intro _; rfl
  | case2 rest ih =>
    intro h
    unfold noCRLF at h
    simp at h
  | case3 rest ih =>
    intro h
    have hrest := noCRLF_tail _ _ h
    have hj := ih hrest
    rw [splitLinesChars.eq_3]
    cases hsp : splitLinesChars rest with
    | nil => exact absurd hsp (splitLinesChars_ne_nil rest)
    | cons l ls =>
      rw [hsp] at hj
      show [] ++ '\n' :: joinLines (l :: ls) = '\n' :: rest
      rw [List.nil_append, hj]
  | case4 c rest h1 h2 hsp ih =>
    exact absurd hsp (splitLinesChars_ne_nil rest)
  | case5 c rest h1 h2 l ls hsp ih =>
    intro h
    have hrest := noCRLF_tail _ _ h
    have hj := ih hrest
    rw [hsp] at hj
    rw [splitLinesChars.eq_4 c rest h1 h2, hsp]
    cases ls with
    | nil =>
      show c :: l = c :: rest
      have hl : l = rest := hj
      rw [hl]
    | cons l2 ls2 =>
      show (c :: l) ++ '\n' :: joinLines (l2 :: ls2) = c :: rest
      have hl : l ++ '\n' :: joinLines (l2 :: ls2) = rest := hj
      rw [List.cons_append, hl]

/-- Helper: the counting loop of `getLineAndColumnFromIndex` equals the
count-free locator on the offset past `count`. -/
theorem glcLoop_eq_locFrom : ∀ (L : List (List Char)) (d i count : Nat),
    glcLoop (count + d) L i count = locFrom d L i := by
  intro L
  induction L with
  | nil => intro d i count; rfl
  | cons l ls ih =>
    intro d i count
    unfold glcLoop locFrom
    by_cases h : d < l.length + 1
    · rw [if_pos (by omega), if_pos h]
      have harith : count + d - count = d := by omega
      rw [harith]
    · rw [if_neg (by omega), if_neg h]
      have harith : count + d = (count + l.length + 1) + (d - (l.length + 1)) := by omega
      rw [harith]
      exact ih (d - (l.length + 1)) (i + 1) (count + l.length + 1)

/-- Helper: on an offset within some line's character span, the locator
returns that line (1-based), the in-line column (1-based), and the line
text. -/
theorem locFrom_within : ∀ (L : List (List Char)) (d i : Nat),
    withinLineSpan L d = true →
    ∃ j c ln, L[j]? = some ln ∧ c < ln.length
      ∧ lineSpanSum (L.take j) + c = d
      ∧ locFrom d L i = some (i + j + 1, c + 1, ln) := by
  intro L
  induction L with
  | nil => intro d i h; simp [withinLineSpan] at h
  | cons l ls ih =>
    intro d i h
    unfold withinLineSpan at h
    rw [Bool.or_eq_true] at h
    rcases h with h | h
    · have hd : d < l.length := of_decide_eq_true h
      refine ⟨0, d, l, by simp, hd, by simp [lineSpanSum], ?_⟩
      unfold locFrom
      rw [if_pos (by omega)]
    · rw [Bool.and_eq_true] at h
      have hge : l.length + 1 ≤ d := of_decide_eq_true h.1
      obtain ⟨j, c, ln, hget, hc, hsum, hloc⟩ := ih (d - (l.length + 1)) (i + 1) h.2
      refine ⟨j + 1, c, ln, by simpa using hget, hc, ?_, ?_⟩
      · rw [List.take_succ_cons]
        show l.length + 1 + lineSpanSum (ls.take j) + c = d
        omega
      · unfold locFrom
        rw [if_neg (by omega), hloc]
        have : i + 1 + j = i + (j + 1) := by omega
        rw [this]

/-- Helper: the character of the rejoined text at a line-local offset is
the line's character. -/
theorem joinLines_get : ∀ (L : List (List Char)) (j c : Nat) (ln : List Char),
    L[j]? = some ln → c < ln.length →
    (joinLines L)[lineSpanSum (L.take j) + c]? = ln[c]? := by
  intro L
  induction L with
  | nil => intro j c ln h _; simp at h
  | cons l ls ih =>
    intro j c ln hget hc
    cases j with
    | zero =>
      simp only [List.getElem?_cons_zero, Option.some.injEq] at hget
      subst hget
      cases ls with
      | nil =>
        show l[0 + c]? = l[c]?
        rw [Nat.zero_add]
      | cons l2 ls2 =>
        show (l ++ '\n' :: joinLines (l2 :: ls2))[0 + c]? = l[c]?
        rw [Nat.zero_add, List.getElem?_append_left hc]
    | succ j2 =>
      simp only [List.getElem?_cons_succ] at hget
      cases ls with
      | nil => simp at hget
      | cons l2 ls2 =>
        have hrec := ih j2 c ln hget hc
        show (l ++ '\n' :: joinLines (l2 :: ls2))[lineSpanSum (l :: (l2 :: ls2).take j2) + c]? = ln[c]?
        show (l ++ '\n' :: joinLines (l2 :: ls2))[l.length + 1 + lineSpanSum ((l2 :: ls2).take j2) + c]? = ln[c]?
        rw [List.getElem?_append_right (by omega)]
        have harith : l.length + 1 + lineSpanSum ((l2 :: ls2).take j2) + c - l.length
            = (lineSpanSum ((l2 :: ls2).take j2) + c) + 1 := by omega
        rw [harith, List.getElem?_cons_succ]
        exact hrec

/-- Helper: a text offset that is neither past the end nor on a `'\n'`
separator falls within some split line's character span. -/
theorem withinLineSpan_of_get : ∀ (L : List (List Char)) (o : Nat),
    o < (joinLines L).length →
    (joinLines L)[o]? ≠ some '\n' →
    withinLineSpan L o = true := by
  intro L
  induction L with
  | nil => intro o ho _; simp [joinLines] at ho
  | cons l ls ih =>
    intro o ho hne
    cases ls with
    | nil =>
      unfold withinLineSpan
      rw [Bool.or_eq_true]
      left
      exact decide_eq_true (by simpa [joinLines] using ho)
    | cons l2 ls2 =>
      have hlen : (joinLines (l :: l2 :: ls2)).length
          = l.length + 1 + (joinLines (l2 :: ls2)).length := by
        show (l ++ '\n' :: joinLines (l2 :: ls2)).length = _
        simp [List.length_append]
        omega
      by_cases hlt : o < l.length
      · unfold withinLineSpan
        rw [Bool.or_eq_true]
        left
        exact decide_eq_true hlt
      · by_cases heq2 : o = l.length
        · exfalso
          apply hne
          subst heq2
          show (l ++ '\n' :: joinLines (l2 :: ls2))[l.length]? = some '\n'
          rw [List.getElem?_append_right (Nat.le_refl _)]
          simp
        · have hgt : l.length + 1 ≤ o := by omega
          unfold withinLineSpan
          rw [Bool.or_eq_true]
          right
          rw [Bool.and_eq_true]
          refine ⟨decide_eq_true hgt, ?_⟩
          apply ih
          · omega
          · intro hc
            apply hne
            show (l ++ '\n' :: joinLines (l2 :: ls2))[o]? = some '\n'
            rw [List.getElem?_append_right (by omega)]
            have harith : o - l.length = (o - (l.length + 1)) + 1 := by omega
            rw [harith, List.getElem?_cons_succ]
            exact hc

/-- C2 counterexample: the claim quantifies over every offset
`0 <= o <= length`, but at the separator offset 1 of the text `a`,
newline, `b` the locator answers line 1, column 2 while line 1 has only
one character — no character of line 1 corresponds to the offset; and on
CRLF text the two-character separator shifts the answer onto the wrong
character (offset 4 of `ab\r\ncd` holds `'c'` but the reported position
holds `'d'`). -/
theorem C2_counterexample :
    (1 ≤ "a\nb".data.length
      ∧ (getLineAndColumnFromIndex "a\nb".data 1).line = 1
      ∧ (getLineAndColumnFromIndex "a\nb".data 1).column = 2
      ∧ ((splitLinesChars "a\nb".data).getD 0 []).length = 1)
    ∧ (4 < "ab\r\ncd".data.length
      ∧ "ab\r\ncd".data[4]? = some 'c'
      ∧ (getLineAndColumnFromIndex "ab\r\ncd".data 4).line = 2
      ∧ (getLineAndColumnFromIndex "ab\r\ncd".data 4).column = 2
      ∧ ((splitLinesChars "ab\r\ncd".data).getD 1 [])[2 - 1]? = some 'd') :=
  ⟨⟨by decide, by decide, by decide, by decide⟩,
   ⟨by decide, by decide, by decide, by decide, by decide⟩⟩

/-- C2 amended: for text free of CRLF separators and any offset that
addresses an actual character other than a newline separator, the
locator's 1-based line and column identify exactly that character: the
reported line text is the split line at `line - 1`, the column points
inside it, the accumulated spans of the preceding lines plus the
zero-based column reconstruct the offset, and the character at that
line/column is the text's character at the offset. -/
theorem C2_locator_amended (s : List Char) (o : Nat)
    (hcr : noCRLF s = true) (ho : o < s.length) (hnl : s[o]? ≠ some '\n') :
    1 ≤ (getLineAndColumnFromIndex s o).line
    ∧ 1 ≤ (getLineAndColumnFromIndex s o).column
    ∧ ∃ ln, (splitLinesChars s)[(getLineAndColumnFromIndex s o).line - 1]? = some ln
      ∧ (getLineAndColumnFromIndex s o).lineText = ln
      ∧ (getLineAndColumnFromIndex s o).column - 1 < ln.length
      ∧ lineSpanSum ((splitLinesChars s).take ((getLineAndColumnFromIndex s o).line - 1))
          + ((getLineAndColumnFromIndex s o).column - 1) = o
      ∧ ln[(getLineAndColumnFromIndex s o).column - 1]? = s[o]? := by
  have hjoin : joinLines (splitLinesChars s) = s := joinLines_splitLinesChars s hcr
  have hws : withinLineSpan (splitLinesChars s) o = true := by
    apply withinLineSpan_of_get
    · rw [hjoin]; exact ho
    · rw [hjoin]; exact hnl
  obtain ⟨j, c, ln, hget, hc, hsum, hloc⟩ := locFrom_within (splitLinesChars s) o 0 hws
  have hglc : glcLoop o (splitLinesChars s) 0 0 = some (j + 1, c + 1, ln) := by
    have heq := glcLoop_eq_locFrom (splitLinesChars s) o 0 0
    rw [Nat.zero_add] at heq
    rw [heq, hloc]
    rw [Nat.zero_add]
  have hres : getLineAndColumnFromIndex s o = ⟨j + 1, c + 1, ln⟩ := by
    unfold getLineAndColumnFromIndex
    dsimp only
    rw [hglc]
  rw [hres]
  refine ⟨by simp, by simp, ln, ?_, rfl, ?_, ?_, ?_⟩
  · show (splitLinesChars s)[j + 1 - 1]? = some ln
    simpa using hget
  · show c + 1 - 1 < ln.length
    simpa using hc
  · show lineSpanSum ((splitLinesChars s).take (j + 1 - 1)) + (c + 1 - 1) = o
    simpa using hsum
  · show ln[c + 1 - 1]? = s[o]?
    have hjg := joinLines_get (splitLinesChars s) j c ln hget hc
    rw [hjoin, hsum] at hjg
    simpa using hjg.symm

/-- C2 witness: offset 2 of the text `a`, newline, `b` is located at line
2, column 1, character `b`. -/
theorem C2_witness :
    noCRLF "a\nb".data = true
    ∧ 2 < "a\nb".data.length
    ∧ "a\nb".data[2]? ≠ some '\n'
    ∧ (1 ≤ (getLineAndColumnFromIndex "a\nb".data 2).line
      ∧ 1 ≤ (getLineAndColumnFromIndex "a\nb".data 2).column
      ∧ ∃ ln, (splitLinesChars "a\nb".data)[(getLineAndColumnFromIndex "a\nb".data 2).line - 1]?
            = some ln
        ∧ (getLineAndColumnFromIndex "a\nb".data 2).lineText = ln
        ∧ (getLineAndColumnFromIndex "a\nb".data 2).column - 1 < ln.length
        ∧ lineSpanSum ((splitLinesChars "a\nb".data).take
            ((getLineAndColumnFromIndex "a\nb".data 2).line - 1))
            + ((getLineAndColumnFromIndex "a\nb".data 2).column - 1) = 2
        ∧ ln[(getLineAndColumnFromIndex "a\nb".data 2).column - 1]? = "a\nb".data[2]?) :=
  ⟨by decide, by decide, by decide,
   C2_locator_amended "a\nb".data 2 (by decide) (by decide) (by decide)⟩
